import Mathlib

/-!
Shallow embedding of the CodeColiseum-Express submission evaluation and
complexity classification pipeline.

Conventions of the embedding:
* JavaScript numbers are modelled as exact rationals (`ℚ`); no claim under
  scrutiny exercises a value near a float rounding boundary.
* `Math.round` is `jsRound q = ⌊q + 1/2⌋` (JS rounds half toward +∞).
* A Judge0 `time` field that fails `Number.isFinite` is coerced to `0` by the
  source before any comparison, so collected probe times are plain rationals.
* Database rows are modelled as explicit structures; an absent row is `none`.
* Thrown errors are modelled with `Except String`.
-/

namespace CodeColiseum

/-- JS Math.round: round half toward positive infinity. -/
def jsRound (q : ℚ) : ℤ := ⌊q + 1/2⌋

/-- Overall functional status of an exam submission
(src/unnamed/part_006, SubmissionStatus values used by submitCodeService). -/
inductive SubmissionStatus where
  | ACCEPTED
  | WRONG_ANSWER
  | PARTIAL
  | COMPILE_ERROR
  | TIME_LIMIT
  | RUNTIME_ERROR
  deriving DecidableEq, Repr

/-- One entry of the `ranges` table of src/unnamed/part_006 lines 62-69
(identical copy in src/unnamed/part_007 lines 70-77). `max = none`
encodes the JS `Infinity` bound of the EXP entry. -/
structure ComplexityRange where
  key : String
  min : ℚ
  max : Option ℚ
  idx : ℕ
  deriving DecidableEq, Repr

/-- The `ranges` object, in its JS insertion order (`Object.entries` iterates
string keys in insertion order). -/
def ranges : List ComplexityRange :=
  [ ⟨"LOGN", 0, some (13/10), 0⟩
  , ⟨"N", 13/10, some (9/5), 1⟩
  , ⟨"NLOGN", 9/5, some (13/5), 2⟩
  , ⟨"N2", 13/5, some (9/2), 3⟩
  , ⟨"N3", 9/2, some (15/2), 4⟩
  , ⟨"EXP", 15/2, none, 5⟩ ]

/-- The bin test `avg >= v.min && avg < v.max` of the classifier loop
(`avg < Infinity` is always true). -/
def inBin (avg : ℚ) (r : ComplexityRange) : Bool :=
  decide (r.min ≤ avg) && (match r.max with
    | some hi => decide (avg < hi)
    | none => true)

/-- classifyComplexity of src/unnamed/part_006 lines 71-85 (identical copy in
src/unnamed/part_007 lines 79-93): the deviation test returns "EXP", else the
average ratio is looked up in the first matching bin, falling back to "EXP". -/
def classifyComplexity (r1 r2 : ℚ) : String :=
  if |r1 - r2| / max r1 r2 > 2/5 then "EXP"
  else
    let avg := (r1 + r2) / 2
    match ranges.find? (fun r => inBin avg r) with
    | some r => r.key
    | none => "EXP"

/-- Ordinal of a complexity key, `ranges[key].idx` in the source. In JS an
invalid key would crash on `.idx`; theorems only apply this to the six valid
keys, so the default value is never reached there. -/
def complexityIdx (k : String) : ℕ :=
  ((ranges.find? (fun r => r.key == k)).map ComplexityRange.idx).getD 0

/-- Result of the exam-mode complexity phase of submitCodeService
(src/unnamed/part_006): the possibly-overridden status and score together with
the complexity fields placed on the response. -/
structure ExamComplexityResult where
  status : SubmissionStatus
  score : ℤ
  yourTimeComplexity : Option String
  expectedTimeComplexity : Option String
  deriving DecidableEq, Repr

/-- Exam-mode complexity phase, src/unnamed/part_006 lines 328-381, given the
collected probe times (already coerced: a non-finite Judge0 time was pushed
as 0). With fewer than three probe cases, or if any collected time fails
`t > 0`, the whole block is skipped and nothing changes; otherwise the first
three times are classified and an inefficient class overrides the status to
WRONG_ANSWER and halves the score. -/
def examComplexityPhase (times : List ℚ) (expectedComplexity : Option String)
    (status0 : SubmissionStatus) (score0 : ℤ) : ExamComplexityResult :=
  match times with
  | t0 :: t1 :: t2 :: rest =>
    if (t0 :: t1 :: t2 :: rest).all (fun t => 0 < t) then
      let r1 := t1 / t0
      let r2 := t2 / t1
      let complexity := classifyComplexity r1 r2
      let expectedKey := expectedComplexity.getD "EXP"
      let curr := complexityIdx complexity
      let exp := complexityIdx expectedKey
      if exp < curr then
        ⟨SubmissionStatus.WRONG_ANSWER, jsRound ((score0 : ℚ) * (1/2)),
          some complexity, expectedComplexity⟩
      else
        ⟨status0, score0, some complexity, expectedComplexity⟩
    else
      ⟨status0, score0, none, none⟩
  | _ => ⟨status0, score0, none, none⟩

/-- Practice-mode complexity phase, src/unnamed/part_007 lines 366-436, given
the collected probe times (same coercion as above). Fewer than three cases or
a non-positive time throws; otherwise the outcome is the response status
together with the observed class and the raw expected class. -/
def practiceComplexityPhase (times : List ℚ) (expectedComplexity : Option String) :
    Except String (String × String × Option String) :=
  if times.length < 3 then
    Except.error "Not enough complexity cases"
  else if times.any (fun t => t ≤ 0) then
    Except.error "Unstable complexity measurement"
  else
    match times with
    | t0 :: t1 :: t2 :: _ =>
      let r1 := t1 / t0
      let r2 := t2 / t1
      let complexity := classifyComplexity r1 r2
      let expectedKey := expectedComplexity.getD "EXP"
      let curr := complexityIdx complexity
      let exp := complexityIdx expectedKey
      let status := if exp < curr then "BAD_SCALING" else "ACCEPTED"
      Except.ok (status, complexity, expectedComplexity)
    | _ => Except.error "Not enough complexity cases"

/-- Lifecycle status of an exam attempt (src/src/utils/exam.utils.ts,
src/unnamed/part_003). -/
inductive AttemptStatus where
  | NOT_STARTED
  | IN_PROGRESS
  | SUBMITTED
  | AUTO_SUBMITTED
  deriving DecidableEq, Repr

/-- The ExamAttempt fields read or written by validateAttempt and submitTest.
Timestamps are epoch milliseconds. -/
structure ExamAttempt where
  status : AttemptStatus
  expiresAt : ℤ
  submittedAt : Option ℤ
  totalScore : ℤ
  deriving DecidableEq, Repr

/-- validateAttempt, src/src/utils/exam.utils.ts lines 74-101: the pair is the
stored row after the call (its side effect) together with the call's outcome.
`new Date() > attempt.expiresAt` is the strict comparison `expiresAt < now`. -/
def validateAttempt (now : ℤ) : Option ExamAttempt → Option ExamAttempt × Except String ExamAttempt
  | none => (none, Except.error "Attempt not found")
  | some a =>
    if a.expiresAt < now then
      (if a.status = AttemptStatus.IN_PROGRESS then
          some { a with status := AttemptStatus.AUTO_SUBMITTED, submittedAt := some now }
        else some a,
        Except.error "Exam time over")
    else if a.status ≠ AttemptStatus.IN_PROGRESS then
      (some a, Except.error "Exam not active")
    else
      (some a, Except.ok a)

/-- replace(/U+00A0/g, " "): collapse non-breaking spaces. Strings are
modelled as lists of characters. -/
def replaceNbsp (l : List Char) : List Char :=
  l.map fun c => if c = '\u00A0' then ' ' else c

/-- Membership in the character class of the source regex (U+200B through U+200D and U+FEFF). -/
def isZeroWidth (c : Char) : Bool :=
  ('\u200B' ≤ c && c ≤ '\u200D') || c = '\uFEFF'

/-- replace(/[zero-width]/g, ""): strip zero-width characters. -/
def stripZeroWidth (l : List Char) : List Char :=
  l.filter fun c => !(isZeroWidth c)

/-- The exam.utils.ts curly-double-quote step: its regex character class holds
the two Unicode curly double quotes U+201C and U+201D. -/
def normalizeDoubleQuotes (l : List Char) : List Char :=
  l.map fun c => if c = '\u201C' ∨ c = '\u201D' then '"' else c

/-- The exam.utils.ts curly-single-quote step: U+2018 and U+2019 become an
ASCII apostrophe. -/
def normalizeSingleQuotes (l : List Char) : List Char :=
  l.map fun c => if c = '\u2018' ∨ c = '\u2019' then '\'' else c

/-- The codeRunner.service.ts double-quote step: its character class contains
only the ASCII straight quote (twice), so it maps a straight quote to itself. -/
def normalizeDoubleQuotesRunner (l : List Char) : List Char :=
  l.map fun c => if c = '"' then '"' else c

/-- The codeRunner.service.ts single-quote step: its character class contains
only the ASCII apostrophe (twice). -/
def normalizeSingleQuotesRunner (l : List Char) : List Char :=
  l.map fun c => if c = '\'' then '\'' else c

/-- replace(/\r\n/g, "\n"): left-to-right non-overlapping replacement of the
two-character sequence CR LF by LF. -/
def replaceCrLf : List Char → List Char
  | '\r' :: '\n' :: rest => '\n' :: replaceCrLf rest
  | c :: rest => c :: replaceCrLf rest
  | [] => []

/-- replace(/\r/g, "\n"): any remaining CR becomes LF. -/
def replaceCr (l : List Char) : List Char :=
  l.map fun c => if c = '\r' then '\n' else c

/-- sanitizeSourceCode, src/src/utils/exam.utils.ts lines 151-168: the six
replacement steps in source order. -/
def sanitizeSourceCode (l : List Char) : List Char :=
  replaceCr (replaceCrLf (normalizeSingleQuotes (normalizeDoubleQuotes
    (stripZeroWidth (replaceNbsp l)))))

/-- sanitizeSourceCode, src/src/services/codeRunner.service.ts lines 61-78:
identical except that its quote character classes hold only ASCII straight
quotes. -/
def sanitizeSourceCodeRunner (l : List Char) : List Char :=
  replaceCr (replaceCrLf (normalizeSingleQuotesRunner (normalizeDoubleQuotesRunner
    (stripZeroWidth (replaceNbsp l)))))

/-- The Submission fields driving final-submission selection
(src/unnamed/part_006 lines 397-439). `id` stands for the database row id;
rows of one (student, problem, exam, attempt) triple are modelled as a list. -/
structure Submission where
  id : ℕ
  passedTestcases : ℕ
  isFinal : Bool
  deriving DecidableEq, Repr

/-- The final-submission step of submitCodeService, src/unnamed/part_006 lines
397-439, restricted to the rows of one (student, problem, exam, attempt)
triple: findFirst the previous final row; the new submission is created final
iff there is none or its passed count is less than or equal to the new count,
demoting the previous final row in that case. -/
def runFinalSelection (subs : List Submission) (newId passedCount : ℕ) : List Submission :=
  match subs.find? (fun s => s.isFinal) with
  | none => subs ++ [⟨newId, passedCount, true⟩]
  | some p =>
    if p.passedTestcases ≤ passedCount then
      (subs.map fun s => if s.id = p.id then { s with isFinal := false } else s)
        ++ [⟨newId, passedCount, true⟩]
    else
      subs ++ [⟨newId, passedCount, false⟩]

/-- StudentProblemStats row (per student, problem, group). -/
structure StudentProblemStats where
  attempts : ℕ
  solved : Bool
  deriving DecidableEq, Repr

/-- GroupProblemStats row (per group, problem). -/
structure GroupProblemStats where
  attemptedCount : ℕ
  acceptedCount : ℕ
  totalAttempts : ℕ
  avgRuntime : ℚ
  avgMemory : ℚ
  deriving DecidableEq, Repr

/-- The two stats rows touched by one group iteration of submitCodeService for
a fixed (student, problem, group); `none` models an absent row. -/
structure GroupStatsState where
  sps : Option StudentProblemStats
  gps : Option GroupProblemStats
  deriving DecidableEq, Repr

/-- One iteration of the per-group stats loop of submitCodeService,
src/unnamed/part_006 lines 459-549: isFirstAttempt and isFirstSolve are read
off the pre-state StudentProblemStats row, then both rows are upserted. -/
def updateGroupStats (st : GroupStatsState) (accepted : Bool) (time mem : ℚ) :
    GroupStatsState :=
  let isFirstAttempt := st.sps.isNone
  let isFirstSolve := accepted && (match st.sps with
    | none => true
    | some s => !s.solved)
  let sps' : StudentProblemStats :=
    match st.sps with
    | none => ⟨1, accepted⟩
    | some s => ⟨s.attempts + 1, if isFirstSolve then true else s.solved⟩
  let gps' : GroupProblemStats :=
    match st.gps with
    | none =>
      ⟨1, if isFirstSolve then 1 else 0, 1, time, mem⟩
    | some g =>
      let newTotalAttempts := g.totalAttempts + 1
      { attemptedCount := g.attemptedCount + (if isFirstAttempt then 1 else 0)
      , acceptedCount := g.acceptedCount + (if isFirstSolve then 1 else 0)
      , totalAttempts := newTotalAttempts
      , avgRuntime := (g.avgRuntime * g.totalAttempts + time) / newTotalAttempts
      , avgMemory := (g.avgMemory * g.totalAttempts + mem) / newTotalAttempts }
  ⟨some sps', some gps'⟩

/-- solved flag of an optional StudentProblemStats row (absent row: false). -/
def spsSolved : Option StudentProblemStats → Bool
  | none => false
  | some s => s.solved

/-- totalAttempts of an optional GroupProblemStats row (absent row: 0). -/
def gpsTotalAttempts : Option GroupProblemStats → ℕ
  | none => 0
  | some g => g.totalAttempts

/-- attemptedCount of an optional GroupProblemStats row (absent row: 0). -/
def gpsAttemptedCount : Option GroupProblemStats → ℕ
  | none => 0
  | some g => g.attemptedCount

/-- acceptedCount of an optional GroupProblemStats row (absent row: 0). -/
def gpsAcceptedCount : Option GroupProblemStats → ℕ
  | none => 0
  | some g => g.acceptedCount

/-- avgRuntime of an optional GroupProblemStats row (absent row: 0). -/
def gpsAvgRuntime : Option GroupProblemStats → ℚ
  | none => 0
  | some g => g.avgRuntime

/-- avgMemory of an optional GroupProblemStats row (absent row: 0). -/
def gpsAvgMemory : Option GroupProblemStats → ℚ
  | none => 0
  | some g => g.avgMemory

/-- The Submission fields submitTest reads when computing the final score
(src/unnamed/part_003 lines 325-344). -/
structure ExamSubmissionRow where
  problemId : String
  passedTestcases : ℕ
  totalTestcases : ℕ
  deriving DecidableEq, Repr

/-- Per-submission score recomputed by submitTest:
round(passed / total * 100), or 0 when totalTestcases is 0. -/
def rowScore (s : ExamSubmissionRow) : ℤ :=
  if 0 < s.totalTestcases then
    jsRound ((s.passedTestcases : ℚ) / (s.totalTestcases : ℚ) * 100)
  else 0

/-- JS Map.set on an association list: overwrite in place, else append. -/
def mapSet (m : List (String × ℤ)) (k : String) (v : ℤ) : List (String × ℤ) :=
  if m.any (fun p => p.1 == k) then
    m.map fun p => if p.1 == k then (k, v) else p
  else
    m ++ [(k, v)]

/-- JS scoreMap.get(k) ?? 0 on an association list. -/
def mapGet (m : List (String × ℤ)) (k : String) : ℤ :=
  ((m.find? (fun p => p.1 == k)).map Prod.snd).getD 0

/-- The scoreMap loop of submitTest, src/unnamed/part_003 lines 333-342: for
each submission, store the maximum of its recomputed score and the value held
so far for its problem. -/
def scoreMapOf (subs : List ExamSubmissionRow) : List (String × ℤ) :=
  subs.foldl (fun m s => mapSet m s.problemId (max (rowScore s) (mapGet m s.problemId))) []

/-- finalScore of submitTest, src/unnamed/part_003 line 344: the sum of the
scoreMap values. -/
def finalScoreOf (subs : List ExamSubmissionRow) : ℤ :=
  (scoreMapOf subs).foldl (fun a p => a + p.2) 0

/-- submitTest, src/unnamed/part_003 lines 293-380, after exam lookup and SEB
and eligibility checks: validateAttempt gates the operation, then the attempt
is moved to SUBMITTED with the computed final score. -/
def submitTest (now : ℤ) (attempt : Option ExamAttempt) (subs : List ExamSubmissionRow) :
    Except String ExamAttempt :=
  match (validateAttempt now attempt).2 with
  | Except.error e => Except.error e
  | Except.ok a =>
    Except.ok { a with
      status := AttemptStatus.SUBMITTED
      submittedAt := some now
      totalScore := finalScoreOf subs }

/-- Spec-side counterpart of the claimed binning rule: the first matching
half-open bin of the average ratio, with the fallback the source actually
implements (the source falls back to EXP, not UNKNOWN). Stated from the
claim's wording for comparison with classifyComplexity. -/
def specAvgBinClass (avg : ℚ) : String :=
  if 0 ≤ avg ∧ avg < 13/10 then "LOGN"
  else if 13/10 ≤ avg ∧ avg < 9/5 then "N"
  else if 9/5 ≤ avg ∧ avg < 13/5 then "NLOGN"
  else if 13/5 ≤ avg ∧ avg < 9/2 then "N2"
  else if 9/2 ≤ avg ∧ avg < 15/2 then "N3"
  else if 15/2 ≤ avg then "EXP"
  else "EXP"

theorem find_bin_eq_spec (avg : ℚ) :
    (match ranges.find? (fun r => inBin avg r) with
      | some r => r.key
      | none => "EXP") = specAvgBinClass avg := by
  rcases lt_or_le avg 0 with h0 | h0
  · have n1 : ¬ (0:ℚ) ≤ avg := by linarith
    have n2 : ¬ (13/10:ℚ) ≤ avg := by linarith
    have n3 : ¬ (9/5:ℚ) ≤ avg := by linarith
    have n4 : ¬ (13/5:ℚ) ≤ avg := by linarith
    have n5 : ¬ (9/2:ℚ) ≤ avg := by linarith
    have n6 : ¬ (15/2:ℚ) ≤ avg := by linarith
    simp [ranges, inBin, specAvgBinClass, n1, n2, n3, n4, n5, n6]
  · rcases lt_or_le avg (13/10) with h1 | h1
    · have n2 : ¬ (13/10:ℚ) ≤ avg := by linarith
      simp [ranges, inBin, specAvgBinClass, h0, h1, n2]
    · rcases lt_or_le avg (9/5) with h2 | h2
      · have m1 : ¬ avg < 13/10 := by linarith
        simp [ranges, inBin, specAvgBinClass, h0, h1, h2, m1]
      · rcases lt_or_le avg (13/5) with h3 | h3
        · have m1 : ¬ avg < 13/10 := by linarith
          have m2 : ¬ avg < 9/5 := by linarith
          have l2 : (13/10:ℚ) ≤ avg := by linarith
          simp [ranges, inBin, specAvgBinClass, h0, h2, h3, m1, m2, l2]
        · rcases lt_or_le avg (9/2) with h4 | h4
          · have m1 : ¬ avg < 13/10 := by linarith
            have m2 : ¬ avg < 9/5 := by linarith
            have m3 : ¬ avg < 13/5 := by linarith
            have l2 : (13/10:ℚ) ≤ avg := by linarith
            have l3 : (9/5:ℚ) ≤ avg := by linarith
            simp [ranges, inBin, specAvgBinClass, h0, h3, h4, m1, m2, m3, l2, l3]
          · rcases lt_or_le avg (15/2) with h5 | h5
            · have m1 : ¬ avg < 13/10 := by linarith
              have m2 : ¬ avg < 9/5 := by linarith
              have m3 : ¬ avg < 13/5 := by linarith
              have m4 : ¬ avg < 9/2 := by linarith
              have l2 : (13/10:ℚ) ≤ avg := by linarith
              have l3 : (9/5:ℚ) ≤ avg := by linarith
              have l4 : (13/5:ℚ) ≤ avg := by linarith
              simp [ranges, inBin, specAvgBinClass, h0, h4, h5, m1, m2, m3, m4, l2, l3, l4]
            · have m1 : ¬ avg < 13/10 := by linarith
              have m2 : ¬ avg < 9/5 := by linarith
              have m3 : ¬ avg < 13/5 := by linarith
              have m4 : ¬ avg < 9/2 := by linarith
              have m5 : ¬ avg < 15/2 := by linarith
              have l2 : (13/10:ℚ) ≤ avg := by linarith
              have l3 : (9/5:ℚ) ≤ avg := by linarith
              have l4 : (13/5:ℚ) ≤ avg := by linarith
              have l5 : (9/2:ℚ) ≤ avg := by linarith
              simp [ranges, inBin, specAvgBinClass, h0, h5, m1, m2, m3, m4, m5, l2, l3, l4, l5]

theorem classify_two_two : classifyComplexity 2 2 = "NLOGN" := by
  norm_num [classifyComplexity, ranges, inBin, List.find?]

theorem classify_ten_ten : classifyComplexity 10 10 = "EXP" := by
  norm_num [classifyComplexity, ranges, inBin, List.find?]

theorem scenarioC_deviation :
    |(15/10 : ℚ) - 100/15| / max (15/10 : ℚ) (100/15) > 2/5 := by
  norm_num [abs_sub_comm, abs_of_pos, max_def]

/-- C3: for positive ratios whose relative deviation exceeds 0.4, the source
classifier does not return an UNSTABLE result; it returns "EXP", and it does
so symmetrically in the two ratios. This is the amended form of the claim. -/
theorem c3_deviation_gives_EXP (r1 r2 : ℚ)
    (h : |r1 - r2| / max r1 r2 > 2/5) :
    classifyComplexity r1 r2 = "EXP" ∧ classifyComplexity r2 r1 = "EXP" := by
  constructor
  · rw [classifyComplexity, if_pos h]
  · rw [classifyComplexity, if_pos]
    rw [abs_sub_comm, max_comm]
    exact h

/-- C3 witness: concrete Scenario C times [10, 15, 100] give ratios 15/10 and
100/15, the deviation test fires, and the classifier returns "EXP" for both
argument orders. -/
theorem c3_deviation_gives_EXP_witness :
    classifyComplexity (15/10) (100/15) = "EXP"
    ∧ classifyComplexity (100/15) (15/10) = "EXP" :=
  c3_deviation_gives_EXP (15/10) (100/15) scenarioC_deviation

/-- C3 counterexample: at times [10, 15, 100] the relative deviation is 31/40,
which exceeds 0.4, yet the classification result is "EXP", not the "UNSTABLE"
result the claim states (no UNSTABLE outcome exists in the source). -/
theorem c3_counterexample :
    |(15/10 : ℚ) - 100/15| / max (15/10 : ℚ) (100/15) = 31/40
    ∧ ((31/40 : ℚ) > 2/5)
    ∧ classifyComplexity (15/10) (100/15) = "EXP"
    ∧ "EXP" ≠ "UNSTABLE" := by
  refine ⟨?_, by norm_num, ?_, by decide⟩
  · norm_num [abs_sub_comm, abs_of_pos, max_def]
  · rw [classifyComplexity, if_pos scenarioC_deviation]

/-- C8: when the deviation test does not fire, classifyComplexity equals the
first-matching-bin map of avg = (r1 + r2) / 2 with bins LOGN, N, NLOGN, N2,
N3, EXP in order, except that the no-bin fallback is "EXP", not "UNKNOWN";
ratios (2, 2) give NLOGN and (10, 10) give EXP. This is the amended form. -/
theorem c8_bin_mapping (r1 r2 : ℚ)
    (h : ¬ |r1 - r2| / max r1 r2 > 2/5) :
    classifyComplexity r1 r2 = specAvgBinClass ((r1 + r2) / 2)
    ∧ classifyComplexity 2 2 = "NLOGN"
    ∧ classifyComplexity 10 10 = "EXP" := by
  refine ⟨?_, classify_two_two, classify_ten_ten⟩
  rw [classifyComplexity, if_neg h]
  exact find_bin_eq_spec ((r1 + r2) / 2)

/-- C8 witness: at ratios (2, 2) the deviation test does not fire and the
classifier agrees with the spec-side bin map on avg = 2. -/
theorem c8_bin_mapping_witness :
    classifyComplexity 2 2 = specAvgBinClass ((2 + 2) / 2)
    ∧ classifyComplexity 2 2 = "NLOGN"
    ∧ classifyComplexity 10 10 = "EXP" :=
  c8_bin_mapping 2 2 (by norm_num)

/-- C8 counterexample: at ratios (-1, -1) the deviation test does not fire,
no bin matches the average -1, and the classifier returns "EXP" rather than
the "UNKNOWN" result the claim states. -/
theorem c8_counterexample :
    ¬ (|(-1 : ℚ) - (-1)| / max (-1 : ℚ) (-1) > 2/5)
    ∧ ranges.find? (fun r => inBin (((-1 : ℚ) + (-1)) / 2) r) = none
    ∧ classifyComplexity (-1) (-1) = "EXP"
    ∧ "EXP" ≠ "UNKNOWN" := by
  have hdev : ¬ (|(-1 : ℚ) - (-1)| / max (-1 : ℚ) (-1) > 2/5) := by norm_num
  have hfind : ranges.find? (fun r => inBin (((-1 : ℚ) + (-1)) / 2) r) = none := by
    norm_num [ranges, inBin, List.find?]
  refine ⟨hdev, hfind, ?_, by decide⟩
  rw [classifyComplexity, if_neg hdev]
  simp only [hfind]

/-- C1: in exam mode an inefficient classification of an ACCEPTED submission
overrides the functional status to WRONG_ANSWER and halves the score
(score = round(score × 0.5)), recording the observed class and the raw
expected class on the response. This is the amended form of the claim: the
source does not leave the functional status unchanged. -/
theorem c1_exam_inefficiency (t0 t1 t2 : ℚ) (rest : List ℚ) (expected : Option String)
    (status0 : SubmissionStatus) (score0 : ℤ)
    (hpos : ∀ t ∈ t0 :: t1 :: t2 :: rest, 0 < t)
    (hineff : complexityIdx (expected.getD "EXP") <
      complexityIdx (classifyComplexity (t1 / t0) (t2 / t1))) :
    examComplexityPhase (t0 :: t1 :: t2 :: rest) expected status0 score0 =
      ⟨SubmissionStatus.WRONG_ANSWER, jsRound ((score0 : ℚ) * (1/2)),
        some (classifyComplexity (t1 / t0) (t2 / t1)), expected⟩ := by
  have hall : (t0 :: t1 :: t2 :: rest).all (fun t => decide (0 < t)) = true := by
    rw [List.all_eq_true]
    intro t ht
    exact decide_eq_true (hpos t ht)
  unfold examComplexityPhase
  simp only [hall, if_true, if_pos hineff]

/-- C1 witness: probe times [1, 2, 4] with expected class LOGN on an ACCEPTED
submission of score 100 yield status WRONG_ANSWER, score 50 and both classes
on the response. -/
theorem c1_exam_inefficiency_witness :
    examComplexityPhase [1, 2, 4] (some "LOGN") SubmissionStatus.ACCEPTED 100 =
      ⟨SubmissionStatus.WRONG_ANSWER, 50, some "NLOGN", some "LOGN"⟩ := by
  have h1 : classifyComplexity ((2:ℚ)/1) (4/2) = "NLOGN" := by
    norm_num [classifyComplexity, ranges, inBin, List.find?]
  have h := c1_exam_inefficiency 1 2 4 [] (some "LOGN") SubmissionStatus.ACCEPTED 100
    (by intro t ht; simp at ht; rcases ht with rfl | rfl | rfl <;> norm_num)
    (by rw [h1]; simp [complexityIdx, ranges, List.find?])
  rw [h, h1]
  norm_num [jsRound]

/-- C1 counterexample: for an ACCEPTED submission with score 100, probe times
[1, 2, 4] (observed NLOGN) against expected LOGN leave the response with
status WRONG_ANSWER — the functional status is not left unchanged as the
claim states. -/
theorem c1_counterexample :
    (examComplexityPhase [1, 2, 4] (some "LOGN") SubmissionStatus.ACCEPTED 100).status =
      SubmissionStatus.WRONG_ANSWER
    ∧ SubmissionStatus.WRONG_ANSWER ≠ SubmissionStatus.ACCEPTED := by
  constructor
  · have h1 : classifyComplexity (2/1) (4/2) = "NLOGN" := by
      norm_num [classifyComplexity, ranges, inBin, List.find?]
    simp only [examComplexityPhase, List.all, h1]
    simp [complexityIdx, ranges, List.find?]
  · decide

/-- C7: when the collected probe times include a non-positive value (the
source coerces a non-finite Judge0 time to 0 first), the practice-mode
pipeline throws the unstable-measurement error, while the exam-mode pipeline
silently skips complexity classification and completes with its status and
score unchanged and no classes recorded. This is the amended form: exam mode
does not fail. -/
theorem c7_nonpositive_probe_time (times : List ℚ) (expected : Option String)
    (status0 : SubmissionStatus) (score0 : ℤ)
    (hlen : 3 ≤ times.length) (hbad : ∃ t ∈ times, t ≤ 0) :
    practiceComplexityPhase times expected =
      Except.error "Unstable complexity measurement"
    ∧ examComplexityPhase times expected status0 score0 =
      ⟨status0, score0, none, none⟩ := by
  obtain ⟨tb, htb, hle⟩ := hbad
  constructor
  · unfold practiceComplexityPhase
    have h3 : ¬ times.length < 3 := by omega
    rw [if_neg h3, if_pos]
    rw [List.any_eq_true]
    exact ⟨tb, htb, decide_eq_true hle⟩
  · obtain ⟨t0, t1, t2, rest, rfl⟩ :
        ∃ t0 t1 t2 rest, times = t0 :: t1 :: t2 :: rest := by
      match times, hlen with
      | t0 :: t1 :: t2 :: rest, _ => exact ⟨t0, t1, t2, rest, rfl⟩
    have hall : (t0 :: t1 :: t2 :: rest).all (fun t => decide (0 < t)) = false := by
      rw [List.all_eq_false]
      refine ⟨tb, htb, ?_⟩
      simpa using hle
    simp only [examComplexityPhase, hall, Bool.false_eq_true, if_false]

/-- C7 witness: probe times [0, 1, 2] make practice mode throw the
unstable-measurement error while exam mode completes unchanged. -/
theorem c7_nonpositive_probe_time_witness :
    practiceComplexityPhase [0, 1, 2] (some "LOGN") =
      Except.error "Unstable complexity measurement"
    ∧ examComplexityPhase [0, 1, 2] (some "LOGN") SubmissionStatus.ACCEPTED 100 =
      ⟨SubmissionStatus.ACCEPTED, 100, none, none⟩ :=
  c7_nonpositive_probe_time [0, 1, 2] (some "LOGN") SubmissionStatus.ACCEPTED 100
    (by norm_num) ⟨0, by norm_num, by norm_num⟩

/-- C7 counterexample: with collected times [0, 1, 2] the exam-mode pipeline
does not fail with an unstable-measurement error as the claim states for both
pipelines; it completes with the ACCEPTED status and untouched score, while
the practice pipeline does throw. -/
theorem c7_counterexample :
    examComplexityPhase [0, 1, 2] (some "LOGN") SubmissionStatus.ACCEPTED 100 =
      ⟨SubmissionStatus.ACCEPTED, 100, none, none⟩
    ∧ practiceComplexityPhase [0, 1, 2] (some "LOGN") =
      Except.error "Unstable complexity measurement" := by
  constructor
  · unfold examComplexityPhase
    norm_num
  · unfold practiceComplexityPhase
    norm_num

/-- C6: for an attempt whose expiresAt lies strictly in the past at the
gating check, validateAttempt fails with the exam-expired error; if the
attempt was still IN_PROGRESS it is stored as AUTO_SUBMITTED with
submittedAt = now by the check itself, and otherwise the stored row is left
untouched. -/
theorem c6_validateAttempt_expiry (a : ExamAttempt) (now : ℤ)
    (hexp : a.expiresAt < now) :
    (validateAttempt now (some a)).2 = Except.error "Exam time over"
    ∧ (a.status = AttemptStatus.IN_PROGRESS →
        (validateAttempt now (some a)).1 =
          some { a with status := AttemptStatus.AUTO_SUBMITTED, submittedAt := some now })
    ∧ (a.status ≠ AttemptStatus.IN_PROGRESS →
        (validateAttempt now (some a)).1 = some a) := by
  simp only [validateAttempt]
  rw [if_pos hexp]
  refine ⟨rfl, fun h => ?_, fun h => ?_⟩
  · simp only [if_pos h]
  · simp only [if_neg h]

/-- C6 witness: an IN_PROGRESS attempt that expired at time 0, checked at
time 5, is stored as AUTO_SUBMITTED with submittedAt 5 and the check throws
the exam-expired error. -/
theorem c6_validateAttempt_expiry_witness :
    (validateAttempt 5 (some ⟨AttemptStatus.IN_PROGRESS, 0, none, 0⟩)).2 =
      Except.error "Exam time over"
    ∧ (validateAttempt 5 (some ⟨AttemptStatus.IN_PROGRESS, 0, none, 0⟩)).1 =
      some ⟨AttemptStatus.AUTO_SUBMITTED, 0, some 5, 0⟩ :=
  ⟨(c6_validateAttempt_expiry ⟨AttemptStatus.IN_PROGRESS, 0, none, 0⟩ 5 (by norm_num)).1,
   (c6_validateAttempt_expiry ⟨AttemptStatus.IN_PROGRESS, 0, none, 0⟩ 5 (by norm_num)).2.1 rfl⟩

theorem map_eq_self_of {α : Type} (l : List α) (f : α → α) (h : ∀ a ∈ l, f a = a) :
    l.map f = l :=
  (List.map_congr_left h).trans (List.map_id l)

theorem countP_demote (p : Submission) (subs : List Submission)
    (hids : (subs.map Submission.id).Nodup)
    (hmem : p ∈ subs) (hfin : p.isFinal = true) :
    (subs.map fun s => if s.id = p.id then { s with isFinal := false } else s).countP
      (fun s => s.isFinal) = subs.countP (fun s => s.isFinal) - 1 := by
  induction subs with
  | nil => cases hmem
  | cons a l ih =>
    rw [List.map_cons, List.countP_cons, List.countP_cons]
    rcases List.mem_cons.mp hmem with rfl | hpl
    · rw [if_pos rfl]
      have hnotin : ∀ s ∈ l, s.id ≠ p.id := by
        intro s hs heq
        exact (List.nodup_cons.mp hids).1 (heq ▸ List.mem_map_of_mem Submission.id hs)
      have hmap : (l.map fun s => if s.id = p.id then { s with isFinal := false } else s) = l :=
        map_eq_self_of l _ (fun s hs => if_neg (hnotin s hs))
      rw [hmap, hfin]
      simp
    · have haid : a.id ≠ p.id := by
        intro heq
        exact (List.nodup_cons.mp hids).1 (heq ▸ List.mem_map_of_mem Submission.id hpl)
      rw [if_neg haid, ih (List.nodup_cons.mp hids).2 hpl]
      have hpos : 0 < l.countP (fun s => s.isFinal) :=
        List.countP_pos_iff.mpr ⟨p, hpl, hfin⟩
      omega

theorem runFinalSelection_none (subs : List Submission) (newId passedCount : ℕ)
    (h : subs.find? (fun s => s.isFinal) = none) :
    runFinalSelection subs newId passedCount = subs ++ [⟨newId, passedCount, true⟩] := by
  unfold runFinalSelection
  rw [h]

theorem runFinalSelection_promote (subs : List Submission) (newId passedCount : ℕ)
    (p : Submission) (h : subs.find? (fun s => s.isFinal) = some p)
    (hle : p.passedTestcases ≤ passedCount) :
    runFinalSelection subs newId passedCount =
      (subs.map fun s => if s.id = p.id then { s with isFinal := false } else s)
        ++ [⟨newId, passedCount, true⟩] := by
  unfold runFinalSelection
  rw [h]
  exact if_pos hle

theorem runFinalSelection_keep (subs : List Submission) (newId passedCount : ℕ)
    (p : Submission) (h : subs.find? (fun s => s.isFinal) = some p)
    (hgt : ¬ p.passedTestcases ≤ passedCount) :
    runFinalSelection subs newId passedCount = subs ++ [⟨newId, passedCount, false⟩] := by
  unfold runFinalSelection
  rw [h]
  exact if_neg hgt

/-- C4: for the submissions of one (student, problem, attempt) triple with
distinct row ids and at most one final row, a pipeline run keeps at most one
final row; the created row (the last of the list) is final exactly when no
prior final exists or the prior final's passed count is at most the new
passed count (ties promote the newer row), and in the promoting case the
prior final reappears demoted in the same result. -/
theorem c4_final_selection (subs : List Submission) (newId passedCount : ℕ)
    (hids : (subs.map Submission.id).Nodup)
    (hinv : subs.countP (fun s => s.isFinal) ≤ 1) :
    (runFinalSelection subs newId passedCount).countP (fun s => s.isFinal) ≤ 1
    ∧ (subs.find? (fun s => s.isFinal) = none →
        (runFinalSelection subs newId passedCount).getLast? =
          some ⟨newId, passedCount, true⟩)
    ∧ (∀ p, subs.find? (fun s => s.isFinal) = some p →
        ((runFinalSelection subs newId passedCount).getLast? =
            some ⟨newId, passedCount, decide (p.passedTestcases ≤ passedCount)⟩
          ∧ (p.passedTestcases ≤ passedCount →
              { p with isFinal := false } ∈ runFinalSelection subs newId passedCount))) := by
  cases hfind : subs.find? (fun s => s.isFinal) with
  | none =>
    rw [runFinalSelection_none subs newId passedCount hfind]
    have hzero : subs.countP (fun s => s.isFinal) = 0 :=
      List.countP_eq_zero.mpr (fun s hs => by
        simpa using List.find?_eq_none.mp hfind s hs)
    refine ⟨?_, fun _ => ?_, ?_⟩
    · rw [List.countP_append, hzero]
      simp [List.countP_cons]
    · simp [List.getLast?_append]
    · intro p hp
      exact Option.noConfusion hp
  | some p =>
    have hpfin : p.isFinal = true := List.find?_some hfind
    have hpmem : p ∈ subs := List.mem_of_find?_eq_some hfind
    have hone : subs.countP (fun s => s.isFinal) = 1 := by
      have hpos : 0 < subs.countP (fun s => s.isFinal) :=
        List.countP_pos_iff.mpr ⟨p, hpmem, hpfin⟩
      omega
    by_cases hle : p.passedTestcases ≤ passedCount
    · rw [runFinalSelection_promote subs newId passedCount p hfind hle]
      refine ⟨?_, fun hc => Option.noConfusion hc, ?_⟩
      · rw [List.countP_append, countP_demote p subs hids hpmem hpfin, hone]
        simp [List.countP_cons]
      · intro q hq
        injection hq with he
        subst he
        refine ⟨by simp [List.getLast?_append, hle], fun _ => ?_⟩
        refine List.mem_append_left _ ?_
        refine List.mem_map.mpr ⟨p, hpmem, ?_⟩
        rw [if_pos rfl]
    · rw [runFinalSelection_keep subs newId passedCount p hfind hle]
      refine ⟨?_, fun hc => Option.noConfusion hc, ?_⟩
      · rw [List.countP_append, hone]
        simp [List.countP_cons]
      · intro q hq
        injection hq with he
        subst he
        refine ⟨by simp [List.getLast?_append, hle], fun hc => absurd hc hle⟩

/-- C4 witness: one prior final row with 3 passed cases and a new submission
with 5 passed cases: the result keeps a single final row, the new row is
created final, and the prior row reappears demoted. -/
theorem c4_final_selection_witness :
    (runFinalSelection [⟨1, 3, true⟩] 2 5).countP (fun s => s.isFinal) ≤ 1
    ∧ (runFinalSelection [⟨1, 3, true⟩] 2 5).getLast? = some ⟨2, 5, true⟩
    ∧ (⟨1, 3, false⟩ : Submission) ∈ runFinalSelection [⟨1, 3, true⟩] 2 5 := by
  have h := c4_final_selection [⟨1, 3, true⟩] 2 5 (by simp) (by simp [List.countP_cons])
  have hfind : ([⟨1, 3, true⟩] : List Submission).find? (fun s => s.isFinal) =
      some ⟨1, 3, true⟩ := by simp [List.find?]
  have h3 := h.2.2 ⟨1, 3, true⟩ hfind
  exact ⟨h.1, by simpa using h3.1, h3.2 (by norm_num)⟩

theorem attempted_after_two_updates (a1 a2 : Bool) (t1 m1 t2 m2 : ℚ) :
    gpsAttemptedCount (updateGroupStats
      (updateGroupStats ⟨none, none⟩ a1 t1 m1) a2 t2 m2).gps = 1 := by
  simp [updateGroupStats, gpsAttemptedCount]

/-- C5: one GroupProblemStats update always increments totalAttempts by 1,
increments attemptedCount by 1 exactly when no StudentProblemStats row
existed for the student (the first attempt), increments acceptedCount by 1
exactly when the submission is accepted and the student had not solved the
problem, updates both running means with the oldMean × oldCount + newValue
over oldCount + 1 formula using totalAttempts as the count, and two updates
by the same student from empty state leave attemptedCount at 1, not 2. The
hypothesis is the reachability fact that a GroupProblemStats row exists
whenever the student's StudentProblemStats row does. -/
theorem c5_group_stats_update (st : GroupStatsState) (accepted : Bool) (time mem : ℚ)
    (hreach : st.gps = none → st.sps = none) :
    gpsTotalAttempts (updateGroupStats st accepted time mem).gps
      = gpsTotalAttempts st.gps + 1
    ∧ gpsAttemptedCount (updateGroupStats st accepted time mem).gps
      = gpsAttemptedCount st.gps + (if st.sps.isNone then 1 else 0)
    ∧ gpsAcceptedCount (updateGroupStats st accepted time mem).gps
      = gpsAcceptedCount st.gps + (if accepted && !(spsSolved st.sps) then 1 else 0)
    ∧ gpsAvgRuntime (updateGroupStats st accepted time mem).gps
      = (gpsAvgRuntime st.gps * (gpsTotalAttempts st.gps : ℚ) + time)
          / ((gpsTotalAttempts st.gps : ℚ) + 1)
    ∧ gpsAvgMemory (updateGroupStats st accepted time mem).gps
      = (gpsAvgMemory st.gps * (gpsTotalAttempts st.gps : ℚ) + mem)
          / ((gpsTotalAttempts st.gps : ℚ) + 1)
    ∧ (∀ (a1 a2 : Bool) (t1 m1 t2 m2 : ℚ),
        gpsAttemptedCount (updateGroupStats
          (updateGroupStats ⟨none, none⟩ a1 t1 m1) a2 t2 m2).gps = 1) := by
  obtain ⟨sps, gps⟩ := st
  cases gps with
  | none =>
    have hs : sps = none := hreach rfl
    subst hs
    refine ⟨?_, ?_, ?_, ?_, ?_, attempted_after_two_updates⟩ <;>
      simp [updateGroupStats, gpsTotalAttempts, gpsAttemptedCount,
        gpsAcceptedCount, gpsAvgRuntime, gpsAvgMemory, spsSolved]
  | some g =>
    cases sps with
    | none =>
      refine ⟨?_, ?_, ?_, ?_, ?_, attempted_after_two_updates⟩ <;>
        simp [updateGroupStats, gpsTotalAttempts, gpsAttemptedCount,
          gpsAcceptedCount, gpsAvgRuntime, gpsAvgMemory, spsSolved]
    | some s =>
      refine ⟨?_, ?_, ?_, ?_, ?_, attempted_after_two_updates⟩ <;>
        simp [updateGroupStats, gpsTotalAttempts, gpsAttemptedCount,
          gpsAcceptedCount, gpsAvgRuntime, gpsAvgMemory, spsSolved]

/-- C5 witness: a first accepted submission from empty state produces counts
1/1/1 and running means equal to the submitted runtime and memory. -/
theorem c5_group_stats_update_witness :
    gpsTotalAttempts (updateGroupStats ⟨none, none⟩ true 2 4).gps = 1
    ∧ gpsAttemptedCount (updateGroupStats ⟨none, none⟩ true 2 4).gps = 1
    ∧ gpsAcceptedCount (updateGroupStats ⟨none, none⟩ true 2 4).gps = 1
    ∧ gpsAvgRuntime (updateGroupStats ⟨none, none⟩ true 2 4).gps = 2
    ∧ gpsAvgMemory (updateGroupStats ⟨none, none⟩ true 2 4).gps = 4 := by
  have h := c5_group_stats_update ⟨none, none⟩ true 2 4 (fun _ => rfl)
  refine ⟨by simpa using h.1, by simpa using h.2.1, ?_, ?_, ?_⟩
  · have h3 := h.2.2.1
    simpa [spsSolved] using h3
  · have h4 := h.2.2.2.1
    rw [h4]
    norm_num [gpsAvgRuntime, gpsTotalAttempts]
  · have h5 := h.2.2.2.2.1
    rw [h5]
    norm_num [gpsAvgMemory, gpsTotalAttempts]

theorem solved_step (st : GroupStatsState) (accepted : Bool) (time mem : ℚ)
    (h : spsSolved st.sps = true) :
    spsSolved (updateGroupStats st accepted time mem).sps = true := by
  obtain ⟨sps, gps⟩ := st
  cases sps with
  | none => simp [spsSolved] at h
  | some s =>
    simp only [spsSolved] at h
    simp [updateGroupStats, spsSolved, h]

theorem solved_preserved_foldl (updates : List (Bool × ℚ × ℚ)) (st : GroupStatsState)
    (h : spsSolved st.sps = true) :
    spsSolved ((updates.foldl (fun s u => updateGroupStats s u.1 u.2.1 u.2.2) st).sps)
      = true := by
  induction updates generalizing st with
  | nil => exact h
  | cons u rest ih =>
    exact ih (updateGroupStats st u.1 u.2.1 u.2.2) (solved_step st u.1 u.2.1 u.2.2 h)

/-- C9: the solved flag of a StudentProblemStats row never moves from true
back to false: one stats update preserves solved = true, an accepted
submission establishes solved = true, and any later sequence of updates
keeps solved = true. -/
theorem c9_solved_monotone (st : GroupStatsState) (accepted : Bool) (time mem : ℚ) :
    (spsSolved st.sps = true → spsSolved (updateGroupStats st accepted time mem).sps = true)
    ∧ (accepted = true → spsSolved (updateGroupStats st accepted time mem).sps = true)
    ∧ (∀ updates : List (Bool × ℚ × ℚ), spsSolved st.sps = true →
        spsSolved ((updates.foldl (fun s u => updateGroupStats s u.1 u.2.1 u.2.2)
          (updateGroupStats st accepted time mem)).sps) = true) := by
  refine ⟨solved_step st accepted time mem, ?_, ?_⟩
  · intro ha
    subst ha
    obtain ⟨sps, gps⟩ := st
    cases sps with
    | none => simp [updateGroupStats, spsSolved]
    | some s =>
      cases hss : s.solved <;>
        simp [updateGroupStats, spsSolved, hss]
  · intro updates h
    exact solved_preserved_foldl updates _ (solved_step st accepted time mem h)

/-- C9 witness: a student with solved = true keeps solved = true through a
further rejected submission and a later sequence of two more updates. -/
theorem c9_solved_monotone_witness :
    spsSolved (updateGroupStats ⟨some ⟨1, true⟩, some ⟨1, 1, 1, 1, 1⟩⟩ false 2 2).sps = true
    ∧ spsSolved (([(false, 3, 3), (true, 4, 4)] : List (Bool × ℚ × ℚ)).foldl
        (fun s u => updateGroupStats s u.1 u.2.1 u.2.2)
        (updateGroupStats ⟨some ⟨1, true⟩, some ⟨1, 1, 1, 1, 1⟩⟩ false 2 2)).sps = true :=
  ⟨(c9_solved_monotone ⟨some ⟨1, true⟩, some ⟨1, 1, 1, 1, 1⟩⟩ false 2 2).1 rfl,
   (c9_solved_monotone ⟨some ⟨1, true⟩, some ⟨1, 1, 1, 1, 1⟩⟩ false 2 2).2.2
     [(false, 3, 3), (true, 4, 4)] rfl⟩

theorem rowScore_nonneg (s : ExamSubmissionRow) : 0 ≤ rowScore s := by
  unfold rowScore
  split
  · unfold jsRound
    rw [Int.le_floor]
    have h0 : (0:ℚ) ≤ (s.passedTestcases : ℚ) / (s.totalTestcases : ℚ) * 100 := by
      positivity
    push_cast
    linarith
  · exact le_refl 0

theorem rowScore_le_100 (s : ExamSubmissionRow)
    (h : s.passedTestcases ≤ s.totalTestcases) : rowScore s ≤ 100 := by
  unfold rowScore
  split
  · rename_i ht
    have htq : (0:ℚ) < (s.totalTestcases : ℚ) := by exact_mod_cast ht
    have hq : (s.passedTestcases : ℚ) / (s.totalTestcases : ℚ) ≤ 1 := by
      rw [div_le_one htq]
      exact_mod_cast h
    unfold jsRound
    rw [Int.floor_le_iff]
    push_cast
    nlinarith
  · norm_num

theorem mapGet_bounds (m : List (String × ℤ)) (k : String)
    (hm : ∀ w ∈ m, 0 ≤ w.2 ∧ w.2 ≤ 100) :
    0 ≤ mapGet m k ∧ mapGet m k ≤ 100 := by
  unfold mapGet
  cases hf : m.find? (fun p => p.1 == k) with
  | none => norm_num
  | some w => simpa using hm w (List.mem_of_find?_eq_some hf)

theorem mapSet_values (m : List (String × ℤ)) (k : String) (v : ℤ) (P : ℤ → Prop)
    (hm : ∀ w ∈ m, P w.2) (hv : P v) : ∀ w ∈ mapSet m k v, P w.2 := by
  intro w hw
  unfold mapSet at hw
  split at hw
  · rcases List.mem_map.mp hw with ⟨u, hu, he⟩
    by_cases hk : u.1 == k
    · rw [if_pos hk] at he
      rw [← he]
      exact hv
    · rw [if_neg hk] at he
      rw [← he]
      exact hm u hu
  · rcases List.mem_append.mp hw with hw1 | hw2
    · exact hm w hw1
    · rw [List.mem_singleton.mp hw2]
      exact hv

theorem mapSet_keys_present (m : List (String × ℤ)) (k : String) (v : ℤ)
    (hk : m.any (fun p => p.1 == k) = true) :
    (mapSet m k v).map Prod.fst = m.map Prod.fst := by
  unfold mapSet
  rw [if_pos hk, List.map_map]
  refine List.map_congr_left ?_
  intro p hp
  by_cases hpk : p.1 == k
  · simp only [Function.comp_apply, if_pos hpk]
    exact (eq_of_beq hpk).symm
  · simp only [Function.comp_apply, if_neg hpk]

theorem mapSet_keys_absent (m : List (String × ℤ)) (k : String) (v : ℤ)
    (hk : m.any (fun p => p.1 == k) = false) :
    (mapSet m k v).map Prod.fst = m.map Prod.fst ++ [k] := by
  unfold mapSet
  rw [if_neg (by rw [hk]; exact Bool.false_ne_true), List.map_append]
  rfl

theorem scoreMap_fold_invariant (subs : List ExamSubmissionRow)
    (h : ∀ s ∈ subs, s.passedTestcases ≤ s.totalTestcases)
    (m : List (String × ℤ))
    (hmv : ∀ w ∈ m, 0 ≤ w.2 ∧ w.2 ≤ 100)
    (hmk : (m.map Prod.fst).Nodup) :
    (∀ w ∈ subs.foldl
        (fun m s => mapSet m s.problemId (max (rowScore s) (mapGet m s.problemId))) m,
        0 ≤ w.2 ∧ w.2 ≤ 100)
    ∧ ((subs.foldl
        (fun m s => mapSet m s.problemId (max (rowScore s) (mapGet m s.problemId))) m).map
          Prod.fst).Nodup
    ∧ ((subs.foldl
        (fun m s => mapSet m s.problemId (max (rowScore s) (mapGet m s.problemId))) m).map
          Prod.fst).toFinset
      = (m.map Prod.fst).toFinset ∪ (subs.map ExamSubmissionRow.problemId).toFinset := by
  induction subs generalizing m with
  | nil => exact ⟨hmv, hmk, by simp⟩
  | cons s rest ih =>
    rw [List.foldl_cons]
    have hs := h s (List.mem_cons_self s rest)
    have hrest : ∀ x ∈ rest, x.passedTestcases ≤ x.totalTestcases :=
      fun x hx => h x (List.mem_cons_of_mem s hx)
    have hvnew : 0 ≤ max (rowScore s) (mapGet m s.problemId)
        ∧ max (rowScore s) (mapGet m s.problemId) ≤ 100 := by
      have hg := mapGet_bounds m s.problemId hmv
      have h1 := rowScore_nonneg s
      have h2 := rowScore_le_100 s hs
      constructor
      · exact le_max_of_le_left h1
      · exact max_le h2 hg.2
    have hmv2 : ∀ w ∈ mapSet m s.problemId (max (rowScore s) (mapGet m s.problemId)),
        0 ≤ w.2 ∧ w.2 ≤ 100 :=
      mapSet_values m s.problemId (max (rowScore s) (mapGet m s.problemId))
        (fun v => 0 ≤ v ∧ v ≤ 100) hmv hvnew
    cases hk : m.any (fun p => p.1 == s.problemId) with
    | true =>
      have hkeys := mapSet_keys_present m s.problemId
        (max (rowScore s) (mapGet m s.problemId)) hk
      have hmk2 : ((mapSet m s.problemId
          (max (rowScore s) (mapGet m s.problemId))).map Prod.fst).Nodup := by
        rw [hkeys]; exact hmk
      obtain ⟨r1, r2, r3⟩ := ih hrest _ hmv2 hmk2
      refine ⟨r1, r2, ?_⟩
      rw [r3, hkeys]
      have hkmem : s.problemId ∈ (m.map Prod.fst).toFinset := by
        rcases List.any_eq_true.mp hk with ⟨p, hp, hpe⟩
        rw [List.mem_toFinset]
        exact (eq_of_beq hpe) ▸ List.mem_map_of_mem Prod.fst hp
      rw [List.map_cons, List.toFinset_cons, Finset.union_insert,
        Finset.insert_eq_self.mpr (Finset.mem_union_left _ hkmem)]
    | false =>
      have hkeys := mapSet_keys_absent m s.problemId
        (max (rowScore s) (mapGet m s.problemId)) hk
      have hnotin : s.problemId ∉ m.map Prod.fst := by
        intro hmem
        rcases List.mem_map.mp hmem with ⟨p, hp, he⟩
        have := List.any_eq_false.mp hk p hp
        simp [he] at this
      have hmk2 : ((mapSet m s.problemId
          (max (rowScore s) (mapGet m s.problemId))).map Prod.fst).Nodup := by
        rw [hkeys, List.nodup_append]
        exact ⟨hmk, List.nodup_singleton _, fun x hx hx2 =>
          hnotin ((List.mem_singleton.mp hx2) ▸ hx)⟩
      obtain ⟨r1, r2, r3⟩ := ih hrest _ hmv2 hmk2
      refine ⟨r1, r2, ?_⟩
      rw [r3, hkeys, List.toFinset_append, List.map_cons, List.toFinset_cons]
      ext x
      simp only [Finset.mem_union, Finset.mem_insert, List.mem_toFinset,
        List.toFinset_cons, List.toFinset_nil, Finset.mem_singleton,
        List.mem_singleton, Finset.not_mem_empty, or_false]
      tauto

theorem scoreMap_invariant (subs : List ExamSubmissionRow)
    (h : ∀ s ∈ subs, s.passedTestcases ≤ s.totalTestcases) :
    (∀ w ∈ scoreMapOf subs, 0 ≤ w.2 ∧ w.2 ≤ 100)
    ∧ ((scoreMapOf subs).map Prod.fst).Nodup
    ∧ ((scoreMapOf subs).map Prod.fst).toFinset
        = (subs.map ExamSubmissionRow.problemId).toFinset := by
  have h0 := scoreMap_fold_invariant subs h [] (by simp) (by simp)
  unfold scoreMapOf
  refine ⟨h0.1, h0.2.1, ?_⟩
  rw [h0.2.2]
  simp

theorem foldl_sum_bounds (m : List (String × ℤ)) (acc : ℤ)
    (hm : ∀ w ∈ m, 0 ≤ w.2 ∧ w.2 ≤ 100) :
    acc ≤ m.foldl (fun a p => a + p.2) acc
    ∧ m.foldl (fun a p => a + p.2) acc ≤ acc + 100 * (m.length : ℤ) := by
  induction m generalizing acc with
  | nil => simp
  | cons w rest ih =>
    have hw := hm w (List.mem_cons_self w rest)
    have hrest := ih (acc + w.2) (fun x hx => hm x (List.mem_cons_of_mem w hx))
    rw [List.foldl_cons]
    constructor
    · linarith [hrest.1]
    · have := hrest.2
      rw [List.length_cons]
      push_cast
      linarith

/-- C2: submitTest moves an IN_PROGRESS, unexpired attempt to SUBMITTED with
submittedAt = now and totalScore the SUM over the distinct problems the
student submitted to of the per-problem best recomputed score; the persisted
totalScore is an integer in [0, 100 × number of distinct attempted problems],
not in [0, 100], and no averaging over the exam's problems happens. This is
the amended form of the claim. -/
theorem c2_submit_test (now : ℤ) (a : ExamAttempt) (subs : List ExamSubmissionRow)
    (hprog : a.status = AttemptStatus.IN_PROGRESS)
    (hexp : ¬ a.expiresAt < now)
    (hcases : ∀ s ∈ subs, s.passedTestcases ≤ s.totalTestcases) :
    submitTest now (some a) subs =
      Except.ok { a with
        status := AttemptStatus.SUBMITTED
        submittedAt := some now
        totalScore := finalScoreOf subs }
    ∧ 0 ≤ finalScoreOf subs
    ∧ finalScoreOf subs ≤
        100 * (((subs.map ExamSubmissionRow.problemId).toFinset.card : ℤ)) := by
  have hinv := scoreMap_invariant subs hcases
  have hsum := foldl_sum_bounds (scoreMapOf subs) 0 hinv.1
  have hlen : ((scoreMapOf subs).length : ℤ)
      = ((subs.map ExamSubmissionRow.problemId).toFinset.card : ℤ) := by
    have h1 : ((scoreMapOf subs).map Prod.fst).toFinset.card
        = ((scoreMapOf subs).map Prod.fst).length :=
      List.toFinset_card_of_nodup hinv.2.1
    rw [← hinv.2.2, h1, List.length_map]
  refine ⟨?_, ?_, ?_⟩
  · simp only [submitTest, validateAttempt, if_neg hexp]
    rw [if_neg (by simp [hprog])]
  · simpa [finalScoreOf] using hsum.1
  · have := hsum.2
    rw [hlen] at this
    simpa [finalScoreOf] using this

/-- C2 witness: an IN_PROGRESS attempt expiring at 10, submitted at 5 with a
single fully-passed submission, moves to SUBMITTED with totalScore 100, and
the bound 100 × 1 holds. -/
theorem c2_submit_test_witness :
    submitTest 5 (some ⟨AttemptStatus.IN_PROGRESS, 10, none, 0⟩) [⟨"p1", 1, 1⟩] =
      Except.ok ⟨AttemptStatus.SUBMITTED, 10, some 5, finalScoreOf [⟨"p1", 1, 1⟩]⟩
    ∧ 0 ≤ finalScoreOf [⟨"p1", 1, 1⟩]
    ∧ finalScoreOf [⟨"p1", 1, 1⟩] ≤
        100 * ((([⟨"p1", 1, 1⟩] : List ExamSubmissionRow).map
          ExamSubmissionRow.problemId).toFinset.card : ℤ) := by
  have h := c2_submit_test 5 ⟨AttemptStatus.IN_PROGRESS, 10, none, 0⟩ [⟨"p1", 1, 1⟩]
    rfl (by norm_num) (by intro s hs; rw [List.mem_singleton.mp hs])
  exact h

/-- C2 counterexample: two fully-passed submissions to two different problems
give totalScore 200, which is not in [0, 100] and is not the average (100) of
the per-problem best scores over the two problems: the source sums the
per-problem best scores instead of averaging them. -/
theorem c2_counterexample :
    finalScoreOf [⟨"p1", 1, 1⟩, ⟨"p2", 1, 1⟩] = 200
    ∧ ¬ (finalScoreOf [⟨"p1", 1, 1⟩, ⟨"p2", 1, 1⟩] ≤ 100) := by
  have h : finalScoreOf [⟨"p1", 1, 1⟩, ⟨"p2", 1, 1⟩] = 200 := by
    have hr : rowScore ⟨"p1", 1, 1⟩ = 100 := by
      norm_num [rowScore, jsRound]
    have hr2 : rowScore ⟨"p2", 1, 1⟩ = 100 := by
      norm_num [rowScore, jsRound]
    simp [finalScoreOf, scoreMapOf, mapSet, mapGet, hr, hr2]
  rw [h]
  norm_num

theorem replaceCrLf_cons_of_ne (c : Char) (l : List Char) (h : c ≠ '\r') :
    replaceCrLf (c :: l) = c :: replaceCrLf l := by
  cases l with
  | nil =>
    rw [replaceCrLf]
    intro rest hc hn
    exact absurd hc h
  | cons d l' =>
    rw [replaceCrLf]
    intro rest hc hn
    exact absurd hc h

theorem mem_replaceCrLf (c : Char) (l : List Char) (h : c ∈ replaceCrLf l) :
    c ∈ l ∨ c = '\n' := by
  induction l using replaceCrLf.induct with
  | case1 rest ih =>
    rw [replaceCrLf] at h
    rcases List.mem_cons.mp h with rfl | h2
    · right; rfl
    · rcases ih h2 with h3 | h3
      · left; simp [h3]
      · right; exact h3
  | case2 c' rest hne ih =>
    have hsplit : c' ≠ '\r' ∨ ∀ rest2, rest ≠ '\n' :: rest2 := by
      by_cases hc : c' = '\r'
      · right; intro rest2 hr; exact hne rest2 hc hr
      · left; exact hc
    have hstep : replaceCrLf (c' :: rest) = c' :: replaceCrLf rest := by
      rcases hsplit with hc | hr
      · exact replaceCrLf_cons_of_ne c' rest hc
      · cases rest with
        | nil =>
          rw [replaceCrLf]
          intro r hc hn
          exact absurd hn (hr r)
        | cons d l' =>
          rw [replaceCrLf]
          intro r hc hn
          exact absurd hn (hr r)
    rw [hstep] at h
    rcases List.mem_cons.mp h with rfl | h2
    · left; exact List.mem_cons_self _ _
    · rcases ih h2 with h3 | h3
      · left; exact List.mem_cons_of_mem _ h3
      · right; exact h3
  | case3 => simp [replaceCrLf] at h

theorem replaceCrLf_of_no_cr (l : List Char) (h : ∀ c ∈ l, c ≠ '\r') :
    replaceCrLf l = l := by
  induction l with
  | nil => rfl
  | cons c rest ih =>
    rw [replaceCrLf_cons_of_ne c rest (h c (List.mem_cons_self _ _))]
    rw [ih (fun x hx => h x (List.mem_cons_of_mem _ hx))]

theorem sanitize_clean (l : List Char) :
    ∀ c ∈ sanitizeSourceCode l,
      c ≠ '\u00A0' ∧ isZeroWidth c = false ∧ c ≠ '“' ∧ c ≠ '”'
      ∧ c ≠ '‘' ∧ c ≠ '’' ∧ c ≠ '\r' := by
  have A1 : ∀ c ∈ replaceNbsp l, c ≠ '\u00A0' := by
    intro c hc
    rcases List.mem_map.mp hc with ⟨x, _, rfl⟩
    by_cases hx : x = '\u00A0'
    · rw [if_pos hx]; decide
    · rw [if_neg hx]; exact hx
  have A2 : ∀ c ∈ stripZeroWidth (replaceNbsp l),
      c ≠ '\u00A0' ∧ isZeroWidth c = false := by
    intro c hc
    refine ⟨A1 c (List.mem_of_mem_filter hc), ?_⟩
    have hp := List.of_mem_filter hc
    simpa using hp
  have A3 : ∀ c ∈ normalizeDoubleQuotes (stripZeroWidth (replaceNbsp l)),
      c ≠ '\u00A0' ∧ isZeroWidth c = false ∧ c ≠ '“' ∧ c ≠ '”' := by
    intro c hc
    rcases List.mem_map.mp hc with ⟨x, hx, rfl⟩
    by_cases hq : x = '“' ∨ x = '”'
    · rw [if_pos hq]
      refine ⟨by decide, by decide, by decide, by decide⟩
    · rw [if_neg hq]
      obtain ⟨p1, p2⟩ := A2 x hx
      exact ⟨p1, p2, fun h => hq (Or.inl h), fun h => hq (Or.inr h)⟩
  have A4 : ∀ c ∈ normalizeSingleQuotes (normalizeDoubleQuotes
        (stripZeroWidth (replaceNbsp l))),
      c ≠ '\u00A0' ∧ isZeroWidth c = false ∧ c ≠ '“' ∧ c ≠ '”'
      ∧ c ≠ '‘' ∧ c ≠ '’' := by
    intro c hc
    rcases List.mem_map.mp hc with ⟨x, hx, rfl⟩
    by_cases hq : x = '‘' ∨ x = '’'
    · rw [if_pos hq]
      refine ⟨by decide, by decide, by decide, by decide, by decide, by decide⟩
    · rw [if_neg hq]
      obtain ⟨p1, p2, p3, p4⟩ := A3 x hx
      exact ⟨p1, p2, p3, p4, fun h => hq (Or.inl h), fun h => hq (Or.inr h)⟩
  have A5 : ∀ c ∈ replaceCrLf (normalizeSingleQuotes (normalizeDoubleQuotes
        (stripZeroWidth (replaceNbsp l)))),
      c ≠ '\u00A0' ∧ isZeroWidth c = false ∧ c ≠ '“' ∧ c ≠ '”'
      ∧ c ≠ '‘' ∧ c ≠ '’' := by
    intro c hc
    rcases mem_replaceCrLf c _ hc with hm | rfl
    · exact A4 c hm
    · refine ⟨by decide, by decide, by decide, by decide, by decide, by decide⟩
  intro c hc
  unfold sanitizeSourceCode at hc
  rcases List.mem_map.mp hc with ⟨x, hx, rfl⟩
  by_cases hx2 : x = '\r'
  · rw [if_pos hx2]
    refine ⟨by decide, by decide, by decide, by decide, by decide, by decide, by decide⟩
  · rw [if_neg hx2]
    obtain ⟨p1, p2, p3, p4, p5, p6⟩ := A5 x hx
    exact ⟨p1, p2, p3, p4, p5, p6, hx2⟩

theorem sanitize_id_of_clean (l : List Char)
    (h : ∀ c ∈ l,
      c ≠ '\u00A0' ∧ isZeroWidth c = false ∧ c ≠ '“' ∧ c ≠ '”'
      ∧ c ≠ '‘' ∧ c ≠ '’' ∧ c ≠ '\r') :
    sanitizeSourceCode l = l := by
  have e1 : replaceNbsp l = l :=
    map_eq_self_of l _ (fun c hc => if_neg (h c hc).1)
  have e2 : stripZeroWidth l = l := by
    unfold stripZeroWidth
    rw [List.filter_eq_self]
    intro c hc
    simp [(h c hc).2.1]
  have e3 : normalizeDoubleQuotes l = l :=
    map_eq_self_of l _ (fun c hc => if_neg (by
      rintro (h1 | h2)
      · exact (h c hc).2.2.1 h1
      · exact (h c hc).2.2.2.1 h2))
  have e4 : normalizeSingleQuotes l = l :=
    map_eq_self_of l _ (fun c hc => if_neg (by
      rintro (h1 | h2)
      · exact (h c hc).2.2.2.2.1 h1
      · exact (h c hc).2.2.2.2.2.1 h2))
  have e5 : replaceCrLf l = l :=
    replaceCrLf_of_no_cr l (fun c hc => (h c hc).2.2.2.2.2.2)
  have e6 : replaceCr l = l :=
    map_eq_self_of l _ (fun c hc => if_neg (h c hc).2.2.2.2.2.2)
  unfold sanitizeSourceCode
  rw [e1, e2, e3, e4, e5, e6]

theorem normalizeDoubleQuotesRunner_id (l : List Char) :
    normalizeDoubleQuotesRunner l = l :=
  map_eq_self_of l _ (fun c _ => by by_cases h : c = '"' <;> simp [h])

theorem normalizeSingleQuotesRunner_id (l : List Char) :
    normalizeSingleQuotesRunner l = l :=
  map_eq_self_of l _ (fun c _ => by by_cases h : c = '\'' <;> simp [h])

theorem sanitizeRunner_eq (l : List Char) :
    sanitizeSourceCodeRunner l = replaceCr (replaceCrLf (stripZeroWidth (replaceNbsp l))) := by
  unfold sanitizeSourceCodeRunner
  rw [normalizeDoubleQuotesRunner_id, normalizeSingleQuotesRunner_id]

theorem sanitizeRunner_clean (l : List Char) :
    ∀ c ∈ sanitizeSourceCodeRunner l,
      c ≠ '\u00A0' ∧ isZeroWidth c = false ∧ c ≠ '\r' := by
  have A1 : ∀ c ∈ replaceNbsp l, c ≠ '\u00A0' := by
    intro c hc
    rcases List.mem_map.mp hc with ⟨x, _, rfl⟩
    by_cases hx : x = '\u00A0'
    · rw [if_pos hx]; decide
    · rw [if_neg hx]; exact hx
  have A2 : ∀ c ∈ stripZeroWidth (replaceNbsp l),
      c ≠ '\u00A0' ∧ isZeroWidth c = false := by
    intro c hc
    refine ⟨A1 c (List.mem_of_mem_filter hc), ?_⟩
    have hp := List.of_mem_filter hc
    simpa using hp
  have A5 : ∀ c ∈ replaceCrLf (stripZeroWidth (replaceNbsp l)),
      c ≠ '\u00A0' ∧ isZeroWidth c = false := by
    intro c hc
    rcases mem_replaceCrLf c _ hc with hm | rfl
    · exact A2 c hm
    · exact ⟨by decide, by decide⟩
  intro c hc
  rw [sanitizeRunner_eq] at hc
  rcases List.mem_map.mp hc with ⟨x, hx, rfl⟩
  by_cases hx2 : x = '\r'
  · rw [if_pos hx2]
    exact ⟨by decide, by decide, by decide⟩
  · rw [if_neg hx2]
    obtain ⟨p1, p2⟩ := A5 x hx
    exact ⟨p1, p2, hx2⟩

theorem sanitizeRunner_id_of_clean (l : List Char)
    (h : ∀ c ∈ l, c ≠ '\u00A0' ∧ isZeroWidth c = false ∧ c ≠ '\r') :
    sanitizeSourceCodeRunner l = l := by
  have e1 : replaceNbsp l = l :=
    map_eq_self_of l _ (fun c hc => if_neg (h c hc).1)
  have e2 : stripZeroWidth l = l := by
    unfold stripZeroWidth
    rw [List.filter_eq_self]
    intro c hc
    simp [(h c hc).2.1]
  have e5 : replaceCrLf l = l :=
    replaceCrLf_of_no_cr l (fun c hc => (h c hc).2.2)
  have e6 : replaceCr l = l :=
    map_eq_self_of l _ (fun c hc => if_neg (h c hc).2.2)
  rw [sanitizeRunner_eq, e1, e2, e5, e6]

/-- C10: both copies of sanitizeSourceCode are total functions on character
lists and idempotent; but the codeRunner.service.ts copy does not remove
curly quotes (its smart-quote character classes contain only ASCII straight
quotes, contradicting its own comment), so its output can still contain the
curly double quote U+201C, which the exam.utils.ts copy maps to a straight
quote. Idempotence of the runner copy holds because curly quotes are fixed
points of it. -/
theorem c10_sanitize_idempotent :
    (∀ l : List Char, sanitizeSourceCode (sanitizeSourceCode l) = sanitizeSourceCode l)
    ∧ (∀ l : List Char,
        sanitizeSourceCodeRunner (sanitizeSourceCodeRunner l) = sanitizeSourceCodeRunner l)
    ∧ sanitizeSourceCodeRunner ['“'] = ['“']
    ∧ sanitizeSourceCode ['“'] = ['"'] := by
  refine ⟨?_, ?_, ?_, ?_⟩
  · intro l
    exact sanitize_id_of_clean (sanitizeSourceCode l) (sanitize_clean l)
  · intro l
    exact sanitizeRunner_id_of_clean (sanitizeSourceCodeRunner l) (sanitizeRunner_clean l)
  · decide
  · decide

end CodeColiseum
